import Mathlib

/-
  Verification development for the Cantotype data-cache engine.

  The definitions below are shallow embeddings of the JavaScript source:
  - cantotype_load.js : verifyIndex, syncCache, dataPassOne, dataPassTwo,
    cacheLoad, initDB
  - cantotype.js (epoch iteration) : syncTransaction, prepTrans
  Machine numbers from JavaScript are modelled as rationals plus
  non-finite markers; raw array buffers are modelled by an identity tag
  together with the result of inflating and JSON-parsing them.
-/

namespace Cantotype

/-- A JavaScript number: either a finite value (a rational, which covers
every finite IEEE double exactly) or one of the non-finite values. -/
inductive JSNum where
  | fin (q : Rat)
  | posInf
  | negInf
  | nan
deriving DecidableEq, Repr

/-- The isFinite test from JavaScript. -/
def JSNum.isFiniteNum : JSNum → Bool
  | .fin _ => true
  | _ => false

/-- The test "value === Math.floor(value)" from JavaScript: the number is
finite and an integer. -/
def JSNum.isIntVal : JSNum → Bool
  | .fin q => q.den = 1
  | _ => false

/-- The test "value >= 0" from JavaScript (false on NaN). -/
def JSNum.isNonneg : JSNum → Bool
  | .fin q => 0 ≤ q
  | .posInf => true
  | _ => false

/-- Natural-number value of a JavaScript number, defaulting to 0; only
used after the checks of verifyIndex have passed. -/
def JSNum.toNatVal : JSNum → Nat
  | .fin q => q.num.toNat
  | _ => 0

/-- A parsed JSON value, the result of JSON.parse in the source. -/
inductive JSVal where
  | vnull
  | vbool (b : Bool)
  | vnum (n : JSNum)
  | vstr (s : String)
  | varr (a : List JSVal)
  | vobj (o : List (String × JSVal))
deriving Repr

/-- The regular expression test from cantotype_load.js line 232:
^[0-9]\x7b4\x7d-[0-9]\x7b2\x7d-[0-9]\x7b2\x7d:[0-9]\x7b3\x7d$ -/
def isRevCode (s : String) : Bool :=
  match s.data with
  | [y1, y2, y3, y4, h1, m1, m2, h2, d1, d2, c1, r1, r2, r3] =>
      y1.isDigit && y2.isDigit && y3.isDigit && y4.isDigit &&
      h1 = '-' && m1.isDigit && m2.isDigit &&
      h2 = '-' && d1.isDigit && d2.isDigit &&
      c1 = ':' && r1.isDigit && r2.isDigit && r3.isDigit
  | _ => false

/-- Validity of a single manifest entry value, following the per-entry
checks of verifyIndex (cantotype_load.js lines 201 to 235): the value is
an array of exactly two elements, the first a string matching the
revision-code pattern, the second a finite non-negative integer. -/
def entryOk (v : JSVal) : Bool :=
  match v with
  | .varr [.vstr rev, .vnum n] =>
      n.isFiniteNum && n.isIntVal && n.isNonneg && isRevCode rev
  | _ => false

/-- verifyIndex from cantotype_load.js lines 188 to 239.  The input must
be of JavaScript type object (a plain object, or null, for which the
for-in loop runs zero times) and not an Array; each enumerated entry
must satisfy entryOk.  Note the source performs no check whatsoever on
the property names (the filenames). -/
def verifyIndex (js : JSVal) : Bool :=
  match js with
  | .vobj o => o.all (fun kv => entryOk kv.2)
  | .vnull => true
  | _ => false

/-- Character class [A-Za-z0-9_-] of the filename pattern given in the
specification. -/
def fnameChar (c : Char) : Bool :=
  c.isAlpha || c.isDigit || c = '_' || c = '-'

/-- No two adjacent dots in a character list. -/
def noConsecDots : List Char → Bool
  | [] => true
  | [_] => true
  | a :: b :: r => !(a = '.' && b = '.') && noConsecDots (b :: r)

/-- Modelled from the spec: the filename pattern
^[A-Za-z0-9_-]+(\.[A-Za-z0-9_-]+)*$ claimed for manifest validation,
i.e. nonempty, only filename characters and dots, no leading or
trailing dot, no two dots in a row.  This definition follows the words
of the specification; it has no counterpart in verifyIndex. -/
def specFilenameOk (s : String) : Bool :=
  let cs := s.data
  !cs.isEmpty &&
  cs.all (fun c => fnameChar c || c = '.') &&
  !(cs.head? = some '.') && !(cs.getLast? = some '.') &&
  noConsecDots cs

/-- Modelled from the spec: the acceptance condition that claim C2
asserts for manifest validation; each entry must additionally have a
well-formed filename that is not the reserved name index. -/
def specManifestAccepts (js : JSVal) : Bool :=
  match js with
  | .vobj o =>
      o.all (fun kv =>
        specFilenameOk kv.1 && !(kv.1 = "index") && entryOk kv.2)
  | _ => false

/-
  Manifests and datasets.

  A manifest maps filenames to a revision code and a byte size; it is
  the typed reading of a JSON index object that passed verifyIndex.
  A dataset is the in-memory working copy used by the two passes: each
  entry additionally carries an optional attached raw blob (the source
  represents an attached blob by the entry array having length 3).
-/

/-- Lexicographic comparison of character lists by code unit, the
semantics of the JavaScript string operators applied to revision
codes. -/
def strLtAux : List Char → List Char → Bool
  | [], [] => false
  | [], _ :: _ => true
  | _ :: _, [] => false
  | a :: as, b :: bs =>
    if a.toNat < b.toNat then true
    else if b.toNat < a.toNat then false
    else strLtAux as bs

/-- The JavaScript string comparison a < b. -/
def strLt (a b : String) : Bool := strLtAux a.data b.data

/-- One manifest entry: revision code and declared byte size. -/
structure MEntry where
  rev : String
  size : Nat
deriving DecidableEq, Repr

/-- A manifest: association list from filename to entry.  JavaScript
objects have unique keys; theorems that need uniqueness carry it as a
Nodup hypothesis. -/
abbrev Manifest : Type := List (String × MEntry)

/-- Property lookup on an object, as the JavaScript expressions
(k in obj) and obj[k]: the value at the first matching key. -/
def getKey {α : Type} (k : String) : List (String × α) → Option α
  | [] => none
  | kv :: r => if kv.1 = k then some kv.2 else getKey k r

/-- Typed reading of a JSON index entry value after verifyIndex has
passed; the defaults are never reached on verified input. -/
def jsEntry (v : JSVal) : MEntry :=
  match v with
  | .varr (.vstr rev :: .vnum n :: _) => { rev := rev, size := n.toNatVal }
  | _ => { rev := "", size := 0 }

/-- Typed reading of a verified JSON index object as a manifest. -/
def jsToManifest (v : JSVal) : Manifest :=
  match v with
  | .vobj o => o.map (fun kv => (kv.1, jsEntry kv.2))
  | _ => []

/-- A raw array buffer, as handled by the source: an identity for the
underlying bytes, together with the result of inflating and
JSON-parsing those bytes (none when decompression or parsing fails).
The source only ever moves buffers around or decodes them, so this is
a complete account of how they are observed. -/
structure ABuf where
  tag : Nat
  dec : Option JSVal
deriving Repr

/-- One dataset entry: the manifest data plus the optionally attached
raw blob (entry array length 3 in the source). -/
structure DEntry where
  rev : String
  size : Nat
  blob : Option ABuf
deriving Repr

/-- The in-memory data file index with blobs being attached, called jsi
throughout cantotype_load.js. -/
abbrev Dataset : Type := List (String × DEntry)

/-- The manifest part of a dataset (keys, revisions, sizes). -/
def dsManifest (d : Dataset) : Manifest :=
  d.map (fun kv => (kv.1, { rev := kv.2.rev, size := kv.2.size }))

/-- Typed reading of a verified JSON index as a fresh dataset with no
blobs attached yet. -/
def jsToDataset (v : JSVal) : Dataset :=
  match v with
  | .vobj o =>
      o.map (fun kv => (kv.1, { rev := (jsEntry kv.2).rev,
                                size := (jsEntry kv.2).size,
                                blob := none }))
  | _ => []

/-
  Reconciliation (syncCache, cantotype_load.js lines 513 to 546).

  jsi is the HTTP (remote) index, jsx the IndexedDB (local) index.
-/

/-- The update list upl built by syncCache lines 520 to 535: iterate the
keys of the remote index; push a key when it is absent from the local
index, or present with a local revision string lexicographically less
than the remote revision string. -/
def updateList (jsi : Manifest) (jsx : Manifest) : List String :=
  jsi.filterMap (fun kv =>
    match getKey kv.1 jsx with
    | none => some kv.1
    | some e => if strLt e.rev kv.2.rev then some kv.1 else none)

/-- The removal list rml built by syncCache lines 537 to 546: iterate
the keys of the local index; push a key when it is absent from the
remote index. -/
def removalList (jsi : Manifest) (jsx : Manifest) : List String :=
  jsx.filterMap (fun kv =>
    if (getKey kv.1 jsi).isNone then some kv.1 else none)

/-
  The IndexedDB object store fstore: an association list from key to
  raw buffer, with unique keys maintained by the operations.
-/

/-- The persistent store fstore. -/
abbrev FStore : Type := List (String × ABuf)

/-- IDBObjectStore.get. -/
def fsGet (st : FStore) (k : String) : Option ABuf := getKey k st

/-- IDBObjectStore.put (and .add, which in the modelled paths is only
used on keys known to be fresh): overwrite in place or append. -/
def fsPut (st : FStore) (k : String) (v : ABuf) : FStore :=
  match st with
  | [] => [(k, v)]
  | kv :: r => if kv.1 = k then (k, v) :: r else kv :: fsPut r k v

/-- IDBObjectStore.delete. -/
def fsDelete (st : FStore) (k : String) : FStore :=
  st.filter (fun kv => !(kv.1 = k))

/-- IDBObjectStore.getAllKeys. -/
def fsKeys (st : FStore) : List String := st.map (fun kv => kv.1)

/-
  syncCache (cantotype_load.js lines 334 to 555): the best-effort
  write-back transaction.  Transaction failures are only logged by the
  onerror and onabort handlers (lines 345 to 352) and never surfaced to
  the caller, which is reflected in the model returning no error
  channel at all.  The model returns the resulting store together with
  the list of write requests issued inside the transaction.
-/

/-- A write request issued inside the syncCache transaction. -/
inductive WOp where
  | wclear
  | wput (k : String) (v : ABuf)
  | wdelete (k : String)
deriving Repr

/-- Fallback buffer for reading an attached blob; never reached when
the dataset has all blobs attached, as at the call site of syncCache. -/
def dsBlobAt (jsi : Dataset) (k : String) : ABuf :=
  match getKey k jsi with
  | some e => e.blob.getD { tag := 0, dec := none }
  | none => { tag := 0, dec := none }

/-- The full-reload path f_full of syncCache (lines 359 to 395): clear
the store, add the raw index under the reserved key index, then add the
attached blob of every remote entry in key order. -/
def syncFull (jsi : Dataset) (rawIndex : ABuf) : FStore × List WOp :=
  let st1 : FStore := fsPut [] "index" rawIndex
  let st2 := jsi.foldl (fun s kv => fsPut s kv.1 (dsBlobAt jsi kv.1)) st1
  (st2, WOp.wclear :: WOp.wput "index" rawIndex ::
        jsi.map (fun kv => WOp.wput kv.1 (dsBlobAt jsi kv.1)))

/-- The update path f_upd of syncCache (lines 399 to 475): put the raw
index under index, put the blob of every update-list key, then fetch
all keys actually in the store and delete every one that is neither
index nor a key of the remote index.  (The source keeps the manifest
removal list only when getAllKeys yields no array, which a successful
request never does.) -/
def syncUpd (st : FStore) (jsi : Dataset) (rawIndex : ABuf)
    (upl : List String) : FStore × List WOp :=
  let st1 := fsPut st "index" rawIndex
  let st2 := upl.foldl (fun s k => fsPut s k (dsBlobAt jsi k)) st1
  let rml2 := (fsKeys st2).filter
    (fun k => !(k = "index") && (getKey k jsi).isNone)
  let st3 := rml2.foldl (fun s k => fsDelete s k) st2
  (st3, WOp.wput "index" rawIndex ::
        (upl.map (fun k => WOp.wput k (dsBlobAt jsi k)) ++
         rml2.map WOp.wdelete))

/-- syncCache (lines 334 to 555): read the stored index; on a missing,
undecodable, unparseable or invalid index run the full reload;
otherwise reconcile and, when either list is nonempty, run the update
path; when both lists are empty let the transaction complete with no
write. -/
def syncCache (st : FStore) (jsi : Dataset) (rawIndex : ABuf) :
    FStore × List WOp :=
  match fsGet st "index" with
  | none => syncFull jsi rawIndex
  | some buf =>
    match buf.dec with
    | none => syncFull jsi rawIndex
    | some jsx =>
      if verifyIndex jsx then
        let jsxm := jsToManifest jsx
        let upl := updateList (dsManifest jsi) jsxm
        let rml := removalList (dsManifest jsi) jsxm
        if upl.length > 0 || rml.length > 0 then
          syncUpd st jsi rawIndex upl
        else
          (st, [])
      else syncFull jsi rawIndex

/-
  dataPassOne (cantotype_load.js lines 587 to 716): the cache pass.
  It opens one readonly transaction; when the stored index is missing,
  undecodable, unparseable or invalid the transaction is aborted and the
  pass completes with the dataset untouched.  Otherwise, for every
  remote key whose local revision is not older than the remote one, the
  stored blob (when the store has one) is attached to the dataset.
-/

/-- Attach the cached blob for a single dataset entry, following the
loop of dataPassOne lines 669 to 714: skip keys absent from the local
index, skip keys whose local revision is lexicographically older than
the remote one, otherwise get the stored value and attach it when one
came back.  An already-attached blob is never displaced, since the
source pushes onto the entry array and element 2 keeps its first
value. -/
def passOneEntry (st : FStore) (jsxm : Manifest) (kv : String × DEntry) :
    String × DEntry :=
  match getKey kv.1 jsxm with
  | none => kv
  | some e =>
    if strLt e.rev kv.2.rev then kv
    else
      if kv.2.blob.isSome then kv
      else
        match fsGet st kv.1 with
        | none => kv
        | some b => (kv.1, { kv.2 with blob := some b })

/-- dataPassOne as a function from the store snapshot and the fresh
dataset to the dataset after the cache pass.  The pass performs no
store write (its transaction is readonly), which is reflected in the
type. -/
def dataPassOne (st : FStore) (jsi : Dataset) : Dataset :=
  match fsGet st "index" with
  | none => jsi
  | some buf =>
    match buf.dec with
    | none => jsi
    | some jsx =>
      if verifyIndex jsx then
        jsi.map (passOneEntry st (jsToManifest jsx))
      else jsi

/-
  dataPassTwo (cantotype_load.js lines 745 to 869): the network pass.
  The network is modelled by a fetch oracle: none means the request
  did not come back with status 200.  A status callback invocation is
  wrapped in try-catch by the source (lines 795 to 807 and 817 to 835)
  and its outcome is discarded either way.
-/

/-- The accumulation of all_bytes in dataPassTwo lines 763 to 770: sum
the declared sizes of the entries that do not yet have a blob
(entry array length less than 3). -/
def allBytes (jsi : Dataset) : Nat :=
  (jsi.filter (fun kv => kv.2.blob.isNone)).foldl
    (fun acc kv => acc + kv.2.size) 0

/-- One status report attempt: the callback is either invoked with the
byte counts, or it threw and the exception was caught and ignored. -/
inductive StatusEv where
  | reported (soFar : Nat) (total : Nat)
  | threw
deriving DecidableEq, Repr

/-- The download loop of dataPassTwo (lines 776 to 868), instrumented
with the status-callback behaviour: thr n tells whether the n-th status
invocation throws.  Entries with a blob are skipped; for each missing
entry a status report is attempted inside try-catch (so a throwing
callback changes nothing but the event log), then the blob is fetched;
a failed fetch ends the whole pass with the error of line 859 and no
dataset is delivered. -/
def passTwoGo (base : String) (fetch : String → Option ABuf)
    (thr : Nat → Bool) (soFar : Nat) (total : Nat) (n : Nat) :
    List (String × DEntry) →
    (Except String (List (String × DEntry))) × List StatusEv
  | [] => (Except.ok [], [])
  | kv :: r =>
    if kv.2.blob.isSome then
      let (res, evs) := passTwoGo base fetch thr soFar total n r
      (res.map (fun l => kv :: l), evs)
    else
      let ev := if thr n then StatusEv.threw
                else StatusEv.reported soFar total
      match fetch kv.1 with
      | some b =>
        let (res, evs) :=
          passTwoGo base fetch thr (soFar + kv.2.size) total (n + 1) r
        (res.map (fun l => (kv.1, { kv.2 with blob := some b }) :: l),
         ev :: evs)
      | none =>
        (Except.error ("Failed to download " ++ base ++ kv.1), [ev])

/-- dataPassTwo with the status-callback behaviour made explicit; base
is canto_config.data_base. -/
def dataPassTwoS (base : String) (fetch : String → Option ABuf)
    (thr : Nat → Bool) (jsi : Dataset) :
    (Except String Dataset) × List StatusEv :=
  passTwoGo base fetch thr 0 (allBytes jsi) 0 jsi

/-- dataPassTwo: the delivered outcome of the network pass. -/
def dataPassTwo (base : String) (fetch : String → Option ABuf)
    (jsi : Dataset) : Except String Dataset :=
  (dataPassTwoS base fetch (fun _ => false) jsi).1

/-
  cacheLoad (cantotype_load.js lines 892 to 1006): the cache-only load
  used when the browser is offline or the remote index cannot be
  fetched.  Every failure path invokes f_err with the same reason
  string.
-/

/-- The single reason string used by every cacheLoad failure path. -/
def cacheFailMsg : String := "Offline and failed to load from cache"

/-- The per-key loop of cacheLoad lines 955 to 996: read the stored
blob of every key of the cached index, failing when one is missing. -/
def cacheLoadGo (st : FStore) :
    List (String × DEntry) → Except String (List (String × DEntry))
  | [] => Except.ok []
  | kv :: r =>
    match fsGet st kv.1 with
    | none => Except.error cacheFailMsg
    | some b =>
      (cacheLoadGo st r).map
        (fun l => (kv.1, { kv.2 with blob := some b }) :: l)

/-- cacheLoad: connect to the store (none models a failed or blocked
connectIXDB), read the index, decompress, parse and verify it, then
load the stored blob of every listed key; any failure yields the one
reason string. -/
def cacheLoad (conn : Option FStore) : Except String Dataset :=
  match conn with
  | none => Except.error cacheFailMsg
  | some st =>
    match fsGet st "index" with
    | none => Except.error cacheFailMsg
    | some buf =>
      match buf.dec with
      | none => Except.error cacheFailMsg
      | some jsx =>
        if verifyIndex jsx then cacheLoadGo st (jsToDataset jsx)
        else Except.error cacheFailMsg

/-
  initDB (cantotype_load.js lines 1138 to 1248): the top-level load.
-/

/-- The host environment of one load: online flag, data base URL, the
outcome of the HTTP GET of the remote index (none when the request does
not come back with status 200), the IndexedDB connection attempt (none
when connectIXDB reports no database), and the fetch oracle for data
files. -/
structure Env where
  onLine : Bool
  base : String
  fetchIndex : Option ABuf
  connect : Option FStore
  fetch : String → Option ABuf

/-- The m_files mapping built on completion (lines 1191 to 1194): the
attached blob of every dataset entry. -/
def mFiles (d : Dataset) : List (String × ABuf) :=
  d.filterMap (fun kv => kv.2.blob.map (fun b => (kv.1, b)))

/-- initDB: when the browser reports offline, or the remote index fails
to download or to decompress and parse, perform a cache-only load.
Otherwise verify the remote index (failure is fatal), then run the
cache pass when a store connection exists, then the network pass.  The
returned dataset is what the caller receives; the subsequent syncCache
write-back is best-effort and its outcome is invisible to the caller
(line 1183 wraps it in try-catch and nothing of it reaches f_ready or
f_err). -/
def initDB (env : Env) : Except String Dataset :=
  if env.onLine = false then cacheLoad env.connect
  else
    match env.fetchIndex with
    | none => cacheLoad env.connect
    | some raw =>
      match raw.dec with
      | none => cacheLoad env.connect
      | some js =>
        if verifyIndex js then
          let jsi0 := jsToDataset js
          match env.connect with
          | none => dataPassTwo env.base env.fetch jsi0
          | some st =>
            dataPassTwo env.base env.fetch (dataPassOne st jsi0)
        else Except.error ("Data file index not valid")

/-
  The epoch protocol (VersionGuard): syncTransaction and prepTrans from
  the epoch iteration of cantotype.js, documented in Database.md.  The
  vars store holds the integer variable image (the Epoch) and the
  string variable dataver (the DataVersion).
-/

/-- The two protocol variables of the vars object store. -/
structure VarsStore where
  image : Option Nat
  dataver : Option String
deriving DecidableEq, Repr

/-- The Epoch value of a store, reading an undefined image as 0 (the
protocol defines the first stored value as 1). -/
def epochVal (s : VarsStore) : Nat := s.image.getD 0

/-- Result of the initial transaction: the vars store afterwards, the
remembered m_dbimage (localEpoch), and the need_reload flag. -/
structure SyncResult where
  store : VarsStore
  dbimage : Nat
  needReload : Bool
deriving DecidableEq, Repr

/-- syncTransaction (cantotype.js lines 740 to 893): the initial
transaction.  When image is undefined, define it as 1, make sure
dataver is absent, remember 1, reload needed.  When image is defined
but dataver absent, increment image, remember the new value, reload
needed.  When both are defined and the stored dataver is not older than
the data file dataver, remember the stored image, no reload.  Otherwise
increment image, delete dataver, remember the new value, reload
needed. -/
def syncTransaction (fileDataver : String) (s : VarsStore) : SyncResult :=
  match s.image with
  | none =>
    { store := { image := some 1, dataver := none },
      dbimage := 1, needReload := true }
  | some img =>
    match s.dataver with
    | none =>
      { store := { image := some (img + 1), dataver := none },
        dbimage := img + 1, needReload := true }
    | some dv =>
      if strLt dv fileDataver then
        { store := { image := some (img + 1), dataver := none },
          dbimage := img + 1, needReload := true }
      else
        { store := s, dbimage := img, needReload := false }

/-- The transaction-prefix check of prepTrans (cantotype.js lines 213
to 232): read image; the transaction may proceed only when image is
defined and equal to the remembered m_dbimage. -/
def prepTransCheck (dbimage : Nat) (s : VarsStore) : Bool :=
  match s.image with
  | none => false
  | some v => v = dbimage

/-- A subsequent transaction guarded by the prefix check.  Its body may
update dataver and the data stores (abstracted away) but never writes
image, which only the initial transaction mutates.  On a failed check
the body does not run at all and f_err gets the DBSyncError reason. -/
def runGuardedTx (dbimage : Nat) (body : Option String → Option String)
    (s : VarsStore) : VarsStore × Option String :=
  if prepTransCheck dbimage s then
    ({ s with dataver := body s.dataver }, none)
  else
    (s, some ("DBSyncError"))

/-- One operation on a shared vars store: an initial transaction of a
fresh instance, or a prefix-guarded subsequent transaction of an
instance that remembers dbimage. -/
inductive StoreOp where
  | init (fileDataver : String)
  | tx (dbimage : Nat) (body : Option String → Option String)

/-- Effect of one operation on the shared store. -/
def stepOp (s : VarsStore) (op : StoreOp) : VarsStore :=
  match op with
  | .init dv => (syncTransaction dv s).store
  | .tx i b => (runGuardedTx i b s).1

/-- Effect of a sequence of operations on the shared store. -/
def runOps (s : VarsStore) (ops : List StoreOp) : VarsStore :=
  ops.foldl stepOp s

/-
  Helper lemmas about association-list lookup and the store operations.
-/

theorem getKey_cons {α : Type} (k : String) (kv : String × α)
    (l : List (String × α)) :
    getKey k (kv :: l) = if kv.1 = k then some kv.2 else getKey k l := rfl

theorem mem_of_getKey {α : Type} {k : String} {v : α}
    {l : List (String × α)} (h : getKey k l = some v) : (k, v) ∈ l := by
  induction l with
  | nil => simp [getKey] at h
  | cons kv r ih =>
    rw [getKey_cons] at h
    by_cases hk : kv.1 = k
    · rw [if_pos hk] at h
      obtain ⟨k1, v1⟩ := kv
      simp only at hk h
      subst hk
      injection h with h
      subst h
      exact List.mem_cons_self _ _
    · rw [if_neg hk] at h
      exact List.mem_cons_of_mem _ (ih h)

theorem getKey_of_mem_nodup {α : Type} {k : String} {v : α}
    {l : List (String × α)} (hnd : (l.map Prod.fst).Nodup)
    (h : (k, v) ∈ l) : getKey k l = some v := by
  induction l with
  | nil => simp at h
  | cons kv r ih =>
    simp only [List.map_cons, List.nodup_cons] at hnd
    rcases List.mem_cons.mp h with h1 | h1
    · rw [← h1, getKey_cons]
      simp
    · rw [getKey_cons]
      have hk : ¬ kv.1 = k := by
        intro he
        exact hnd.1 (he ▸ (List.mem_map.mpr ⟨(k, v), h1, rfl⟩))
      simp [hk]
      exact ih hnd.2 h1

theorem getKey_isSome_iff {α : Type} (k : String)
    (l : List (String × α)) :
    (getKey k l).isSome = true ↔ k ∈ l.map Prod.fst := by
  induction l with
  | nil => simp [getKey]
  | cons kv r ih =>
    rw [getKey_cons]
    by_cases hk : kv.1 = k
    · simp [hk]
    · rw [if_neg hk, ih]
      simp only [List.map_cons, List.mem_cons]
      constructor
      · exact fun h => Or.inr h
      · rintro (h | h)
        · exact absurd h.symm hk
        · exact h

theorem getKey_eq_none_iff {α : Type} (k : String)
    (l : List (String × α)) :
    getKey k l = none ↔ k ∉ l.map Prod.fst := by
  rw [← getKey_isSome_iff]
  cases getKey k l <;> simp

theorem fsGet_fsPut (st : FStore) (k k2 : String) (v : ABuf) :
    fsGet (fsPut st k v) k2 = if k = k2 then some v else fsGet st k2 := by
  induction st with
  | nil =>
    simp only [fsPut, fsGet, getKey_cons, getKey]
  | cons kv r ih =>
    simp only [fsPut]
    by_cases h1 : kv.1 = k
    · simp only [h1, if_pos rfl]
      by_cases h2 : k = k2
      · simp [fsGet, getKey_cons, h2]
      · have : ¬ kv.1 = k2 := by rw [h1]; exact h2
        simp [fsGet, getKey_cons, h2, this, h1]
    · simp only [if_neg h1]
      by_cases h2 : kv.1 = k2
      · have : ¬ k = k2 := by intro he; exact h1 (he ▸ h2)
        simp [fsGet, getKey_cons, h2, this]
      · simp only [fsGet, getKey_cons, if_neg h2] at *
        exact ih

theorem fsGet_fsDelete (st : FStore) (k k2 : String) :
    fsGet (fsDelete st k) k2 = if k = k2 then none else fsGet st k2 := by
  induction st with
  | nil => simp [fsDelete, fsGet, getKey]
  | cons kv r ih =>
    by_cases h1 : kv.1 = k
    · have hstep : fsDelete (kv :: r) k = fsDelete r k := by
        simp [fsDelete, List.filter, h1]
      rw [hstep, ih]
      by_cases h2 : k = k2
      · simp [h2]
      · have hkv : ¬ kv.1 = k2 := by rw [h1]; exact h2
        simp [fsGet, getKey_cons, hkv, h2]
    · have hstep : fsDelete (kv :: r) k = kv :: fsDelete r k := by
        simp [fsDelete, List.filter, h1]
      rw [hstep]
      by_cases h2 : kv.1 = k2
      · have hne : ¬ k = k2 := fun he => h1 (he ▸ h2)
        simp [fsGet, getKey_cons, h2, hne]
      · simp only [fsGet, getKey_cons, if_neg h2]
        exact ih

theorem fsGet_foldl_put (ks : List String) (g : String → ABuf)
    (st : FStore) (k2 : String) :
    fsGet (ks.foldl (fun s k => fsPut s k (g k)) st) k2 =
      if k2 ∈ ks then some (g k2) else fsGet st k2 := by
  induction ks generalizing st with
  | nil => simp
  | cons a r ih =>
    simp only [List.foldl_cons, ih, List.mem_cons]
    by_cases h1 : k2 ∈ r
    · simp [h1]
    · by_cases h2 : k2 = a
      · simp [h1, h2, fsGet_fsPut]
      · have : ¬ a = k2 := fun he => h2 he.symm
        simp [h1, h2, fsGet_fsPut, this]

theorem fsGet_foldl_del (ks : List String) (st : FStore) (k2 : String) :
    fsGet (ks.foldl (fun s k => fsDelete s k) st) k2 =
      if k2 ∈ ks then none else fsGet st k2 := by
  induction ks generalizing st with
  | nil => simp
  | cons a r ih =>
    simp only [List.foldl_cons, ih, List.mem_cons]
    by_cases h1 : k2 ∈ r
    · simp [h1]
    · by_cases h2 : k2 = a
      · simp [h1, h2, fsGet_fsDelete]
      · have : ¬ a = k2 := fun he => h2 he.symm
        simp [h1, h2, fsGet_fsDelete, this]

theorem fsGet_isSome_iff_mem (st : FStore) (k : String) :
    (fsGet st k).isSome = true ↔ k ∈ fsKeys st :=
  getKey_isSome_iff k st

/-
  Lemmas about reconciliation.
-/

theorem updateList_subset_keys (R L : Manifest) :
    ∀ k, k ∈ updateList R L → k ∈ R.map Prod.fst := by
  intro k hk
  rcases List.mem_filterMap.mp hk with ⟨kv, hmem, heq⟩
  have : kv.1 = k := by
    cases hL : getKey kv.1 L with
    | none =>
      rw [hL] at heq
      dsimp only at heq
      injection heq
    | some e =>
      rw [hL] at heq
      dsimp only at heq
      by_cases h : strLt e.rev kv.2.rev = true
      · rw [if_pos h] at heq; injection heq
      · rw [if_neg h] at heq; injection heq
  exact this ▸ List.mem_map.mpr ⟨kv, hmem, rfl⟩

theorem mem_updateList_iff {R L : Manifest}
    (hnd : (R.map Prod.fst).Nodup) (k : String) :
    k ∈ updateList R L ↔
      ∃ er, getKey k R = some er ∧
        (getKey k L = none ∨
         ∃ el, getKey k L = some el ∧ strLt el.rev er.rev = true) := by
  constructor
  · intro hk
    rcases List.mem_filterMap.mp hk with ⟨kv, hmem, heq⟩
    have hkeq : kv.1 = k ∧
        (getKey kv.1 L = none ∨
         ∃ el, getKey kv.1 L = some el ∧ strLt el.rev kv.2.rev = true) := by
      cases hL : getKey kv.1 L with
      | none =>
        rw [hL] at heq
        dsimp only at heq
        injection heq with heq
        exact ⟨heq, Or.inl rfl⟩
      | some e =>
        rw [hL] at heq
        dsimp only at heq
        by_cases h : strLt e.rev kv.2.rev = true
        · rw [if_pos h] at heq
          injection heq with heq
          exact ⟨heq, Or.inr ⟨e, rfl, h⟩⟩
        · rw [if_neg h] at heq
          injection heq
    obtain ⟨hkeq1, hrest⟩ := hkeq
    subst hkeq1
    exact ⟨kv.2, getKey_of_mem_nodup hnd hmem, hrest⟩
  · rintro ⟨er, hR, hrest⟩
    apply List.mem_filterMap.mpr
    refine ⟨(k, er), mem_of_getKey hR, ?_⟩
    rcases hrest with h | ⟨el, hL, hlt⟩
    · rw [h]
    · rw [hL]
      dsimp only
      rw [if_pos hlt]

theorem mem_removalList_iff (R L : Manifest) (k : String) :
    k ∈ removalList R L ↔ k ∈ L.map Prod.fst ∧ getKey k R = none := by
  constructor
  · intro hk
    rcases List.mem_filterMap.mp hk with ⟨kv, hmem, heq⟩
    by_cases h : (getKey kv.1 R).isNone
    · rw [if_pos h] at heq
      injection heq with heq
      subst heq
      exact ⟨List.mem_map.mpr ⟨kv, hmem, rfl⟩,
        Option.isNone_iff_eq_none.mp h⟩
    · rw [if_neg h] at heq
      injection heq
  · rintro ⟨hmem, hnone⟩
    rcases List.mem_map.mp hmem with ⟨kv, hkv, hk1⟩
    apply List.mem_filterMap.mpr
    refine ⟨kv, hkv, ?_⟩
    rw [hk1, hnone]
    rfl

theorem strLtAux_irrefl (l : List Char) : strLtAux l l = false := by
  induction l with
  | nil => rfl
  | cons a r ih => simp [strLtAux, ih]

theorem strLt_irrefl (s : String) : strLt s s = false :=
  strLtAux_irrefl s.data

theorem updateList_self {R : Manifest}
    (hnd : (R.map Prod.fst).Nodup) : updateList R R = [] := by
  apply List.filterMap_eq_nil_iff.mpr
  intro kv hkv
  unfold updateList at *
  rw [getKey_of_mem_nodup hnd hkv]
  simp [strLt_irrefl]

theorem removalList_self (R : Manifest) : removalList R R = [] := by
  apply List.filterMap_eq_nil_iff.mpr
  intro kv hkv
  have hsome : (getKey kv.1 R).isSome = true :=
    (getKey_isSome_iff kv.1 R).mpr (List.mem_map.mpr ⟨kv, hkv, rfl⟩)
  have hne : ¬ (getKey kv.1 R).isNone = true := by
    rw [Option.isNone_iff_eq_none]
    intro h
    rw [h] at hsome
    simp at hsome
  simp [hne]

theorem dsManifest_keys (jsi : Dataset) :
    (dsManifest jsi).map Prod.fst = jsi.map Prod.fst := by
  simp [dsManifest]

/-
  Characterization of the two write paths of syncCache.
-/

theorem syncFull_get (jsi : Dataset) (raw : ABuf) (k : String) :
    fsGet (syncFull jsi raw).1 k =
      if k ∈ jsi.map Prod.fst then some (dsBlobAt jsi k)
      else if k = "index" then some raw else none := by
  have hfold : jsi.foldl (fun s kv => fsPut s kv.1 (dsBlobAt jsi kv.1))
      (fsPut [] "index" raw) =
      (jsi.map Prod.fst).foldl (fun s k => fsPut s k (dsBlobAt jsi k))
        (fsPut [] "index" raw) := by
    rw [List.foldl_map]
  simp only [syncFull, hfold, fsGet_foldl_put]
  by_cases h1 : k ∈ jsi.map Prod.fst
  · simp [h1]
  · rw [if_neg h1, if_neg h1, fsGet_fsPut]
    by_cases h2 : k = "index"
    · simp [h2]
    · have : ¬ "index" = k := fun he => h2 he.symm
      simp [h2, this, fsGet, getKey]

theorem syncUpd_get_index (st : FStore) (jsi : Dataset) (raw : ABuf)
    (upl : List String)
    (hupl : ∀ k ∈ upl, k ∈ jsi.map Prod.fst)
    (hidx : "index" ∉ jsi.map Prod.fst) :
    fsGet (syncUpd st jsi raw upl).1 "index" = some raw := by
  have hnu : "index" ∉ upl := fun h => hidx (hupl _ h)
  simp only [syncUpd, fsGet_foldl_del, fsGet_foldl_put]
  have hnr : "index" ∉ (fsKeys ((upl.foldl
      (fun s k => fsPut s k (dsBlobAt jsi k)) (fsPut st "index" raw)))).filter
      (fun k => !(k = "index") && (getKey k jsi).isNone) := by
    intro h
    rcases List.mem_filter.mp h with ⟨_, hp⟩
    simp at hp
  rw [if_neg hnr, if_neg hnu, fsGet_fsPut]
  simp

theorem syncUpd_get_upd (st : FStore) (jsi : Dataset) (raw : ABuf)
    (upl : List String) (k : String)
    (hupl : ∀ k ∈ upl, k ∈ jsi.map Prod.fst)
    (hk : k ∈ upl) :
    fsGet (syncUpd st jsi raw upl).1 k = some (dsBlobAt jsi k) := by
  have hkey : k ∈ jsi.map Prod.fst := hupl _ hk
  have hsome : (getKey k jsi).isSome = true :=
    (getKey_isSome_iff k jsi).mpr hkey
  simp only [syncUpd, fsGet_foldl_del, fsGet_foldl_put]
  have hnr : k ∉ (fsKeys ((upl.foldl
      (fun s k => fsPut s k (dsBlobAt jsi k)) (fsPut st "index" raw)))).filter
      (fun k => !(k = "index") && (getKey k jsi).isNone) := by
    intro h
    rcases List.mem_filter.mp h with ⟨_, hp⟩
    rw [Bool.and_eq_true] at hp
    rw [Option.isNone_iff_eq_none] at hp
    rw [hp.2] at hsome
    simp at hsome
  rw [if_neg hnr, if_pos hk]

theorem syncUpd_get_other (st : FStore) (jsi : Dataset) (raw : ABuf)
    (upl : List String) (k : String)
    (hk1 : ¬ k = "index") (hk2 : k ∈ jsi.map Prod.fst)
    (hk3 : k ∉ upl) :
    fsGet (syncUpd st jsi raw upl).1 k = fsGet st k := by
  have hsome : (getKey k jsi).isSome = true :=
    (getKey_isSome_iff k jsi).mpr hk2
  simp only [syncUpd, fsGet_foldl_del, fsGet_foldl_put]
  have hnr : k ∉ (fsKeys ((upl.foldl
      (fun s k => fsPut s k (dsBlobAt jsi k)) (fsPut st "index" raw)))).filter
      (fun k => !(k = "index") && (getKey k jsi).isNone) := by
    intro h
    rcases List.mem_filter.mp h with ⟨_, hp⟩
    rw [Bool.and_eq_true] at hp
    rw [Option.isNone_iff_eq_none] at hp
    rw [hp.2] at hsome
    simp at hsome
  rw [if_neg hnr, if_neg hk3, fsGet_fsPut]
  have : ¬ "index" = k := fun he => hk1 he.symm
  rw [if_neg this]

theorem syncUpd_get_stale (st : FStore) (jsi : Dataset) (raw : ABuf)
    (upl : List String) (k : String)
    (hk1 : ¬ k = "index") (hk2 : getKey k jsi = none) :
    fsGet (syncUpd st jsi raw upl).1 k = none := by
  simp only [syncUpd, fsGet_foldl_del, fsGet_foldl_put]
  set st2 := upl.foldl (fun s k => fsPut s k (dsBlobAt jsi k))
    (fsPut st "index" raw) with hst2
  by_cases hmem : k ∈ (fsKeys st2).filter
      (fun k => !(k = "index") && (getKey k jsi).isNone)
  · rw [if_pos hmem]
  · rw [if_neg hmem]
    by_cases hin : k ∈ upl
    · exfalso
      apply hmem
      apply List.mem_filter.mpr
      constructor
      · apply (fsGet_isSome_iff_mem st2 k).mp
        rw [hst2, fsGet_foldl_put, if_pos hin]
        rfl
      · simp [hk1, hk2]
    · rw [if_neg hin, fsGet_fsPut]
      have hne : ¬ "index" = k := fun he => hk1 he.symm
      rw [if_neg hne]
      cases hget : fsGet st k with
      | none => rfl
      | some b =>
        exfalso
        apply hmem
        apply List.mem_filter.mpr
        constructor
        · apply (fsGet_isSome_iff_mem st2 k).mp
          rw [hst2, fsGet_foldl_put, if_neg hin, fsGet_fsPut,
            if_neg hne, hget]
          rfl
        · simp [hk1, hk2]

theorem getKey_dsManifest_isSome (jsi : Dataset) (k : String) :
    (getKey k (dsManifest jsi)).isSome = (getKey k jsi).isSome := by
  have h1 := getKey_isSome_iff k (dsManifest jsi)
  have h2 := getKey_isSome_iff k jsi
  rw [dsManifest_keys] at h1
  cases ha : (getKey k (dsManifest jsi)).isSome <;>
    cases hb : (getKey k jsi).isSome <;> simp_all

theorem syncCache_full_case (st : FStore) (jsi : Dataset) (raw : ABuf)
    (h : fsGet st "index" = none ∨
      (∃ buf, fsGet st "index" = some buf ∧ buf.dec = none) ∨
      (∃ buf v, fsGet st "index" = some buf ∧ buf.dec = some v ∧
        verifyIndex v = false)) :
    syncCache st jsi raw = syncFull jsi raw := by
  unfold syncCache
  rcases h with h | ⟨buf, h1, h2⟩ | ⟨buf, v, h1, h2, h3⟩
  · rw [h]
  · rw [h1]
    dsimp only
    rw [h2]
  · rw [h1]
    dsimp only
    rw [h2]
    dsimp only
    rw [h3]
    simp

theorem syncCache_empty_case (st : FStore) (jsi : Dataset) (raw : ABuf)
    (buf : ABuf) (v : JSVal)
    (h1 : fsGet st "index" = some buf) (h2 : buf.dec = some v)
    (h3 : verifyIndex v = true)
    (h4 : updateList (dsManifest jsi) (jsToManifest v) = [])
    (h5 : removalList (dsManifest jsi) (jsToManifest v) = []) :
    syncCache st jsi raw = (st, []) := by
  unfold syncCache
  rw [h1]
  dsimp only
  rw [h2]
  dsimp only
  rw [h3]
  simp [h4, h5]

theorem syncCache_upd_case (st : FStore) (jsi : Dataset) (raw : ABuf)
    (buf : ABuf) (v : JSVal)
    (h1 : fsGet st "index" = some buf) (h2 : buf.dec = some v)
    (h3 : verifyIndex v = true)
    (h4 : ¬ (updateList (dsManifest jsi) (jsToManifest v) = [] ∧
             removalList (dsManifest jsi) (jsToManifest v) = [])) :
    syncCache st jsi raw =
      syncUpd st jsi raw (updateList (dsManifest jsi) (jsToManifest v)) := by
  unfold syncCache
  rw [h1]
  dsimp only
  rw [h2]
  dsimp only
  rw [h3]
  have : (updateList (dsManifest jsi) (jsToManifest v)).length > 0 ∨
      (removalList (dsManifest jsi) (jsToManifest v)).length > 0 := by
    by_contra hc
    push_neg at hc
    exact h4 ⟨List.eq_nil_of_length_eq_zero (Nat.le_zero.mp hc.1),
      List.eq_nil_of_length_eq_zero (Nat.le_zero.mp hc.2)⟩
  rcases this with h | h
  · simp [h]
  · simp [h]

/-
  Lemmas for the epoch protocol.
-/

theorem epochVal_stepOp (s : VarsStore) (op : StoreOp) :
    epochVal s ≤ epochVal (stepOp s op) := by
  cases op with
  | init dv =>
    obtain ⟨iv, dv0⟩ := s
    cases iv with
    | none => simp [stepOp, syncTransaction, epochVal]
    | some img =>
      cases dv0 with
      | none => simp [stepOp, syncTransaction, epochVal]
      | some d =>
        simp only [stepOp, syncTransaction]
        by_cases h : strLt d dv = true
        · simp [h, epochVal]
        · simp [h, epochVal]
  | tx i b =>
    simp only [stepOp, runGuardedTx]
    by_cases h : prepTransCheck i s = true
    · simp [h, epochVal]
    · simp [h]

theorem epochVal_runOps (s : VarsStore) (ops : List StoreOp) :
    epochVal s ≤ epochVal (runOps s ops) := by
  induction ops generalizing s with
  | nil => exact Nat.le_refl _
  | cons op r ih =>
    exact Nat.le_trans (epochVal_stepOp s op) (ih (stepOp s op))

/-
  Claim theorems.
-/

/-- Claim C1: on one shared vars store, every initial transaction that
decides a reload is needed increments the stored Epoch exactly once
(reading an undefined Epoch as 0, so that it becomes 1), remembers the
new value and leaves dataver deleted, while a no-reload outcome leaves
the store untouched; the Epoch is monotonically non-decreasing across
any sequence of operations; and every prefix-guarded subsequent
transaction whose check sees an undefined or different Epoch fails with
the DBSyncError reason (the StaleInstance of the specification) and
performs none of its body. -/
theorem versionGuard_epoch_protocol :
    (∀ dv s, ((syncTransaction dv s).needReload = true →
        epochVal (syncTransaction dv s).store = epochVal s + 1 ∧
        (syncTransaction dv s).store.image =
          some (syncTransaction dv s).dbimage ∧
        (syncTransaction dv s).store.dataver = none) ∧
      ((syncTransaction dv s).needReload = false →
        (syncTransaction dv s).store = s)) ∧
    (∀ s ops, epochVal s ≤ epochVal (runOps s ops)) ∧
    (∀ i b s, (s.image = none ∨ ¬ s.image = some i) →
      runGuardedTx i b s = (s, some ("DBSyncError"))) := by
  refine ⟨?_, ?_, ?_⟩
  · intro dv s
    obtain ⟨iv, dv0⟩ := s
    cases iv with
    | none => simp [syncTransaction, epochVal]
    | some img =>
      cases dv0 with
      | none => simp [syncTransaction, epochVal]
      | some d =>
        simp only [syncTransaction]
        by_cases h : strLt d dv = true
        · simp [h, epochVal]
        · simp [h]
  · exact epochVal_runOps
  · intro i b s h
    have hc : prepTransCheck i s = false := by
      unfold prepTransCheck
      rcases h with h | h
      · rw [h]
      · cases hs : s.image with
        | none => rfl
        | some v =>
          rw [hs] at h
          have : ¬ v = i := fun he => h (by rw [he])
          simp [this]
    simp [runGuardedTx, hc]

/-- Witness for C1 at concrete inputs: a store with Epoch 2 and no
dataver reloads to Epoch 3, and a guarded transaction remembering
Epoch 1 against a store at Epoch 2 fails with DBSyncError leaving the
store unchanged. -/
theorem versionGuard_epoch_protocol_witness :
    (epochVal (syncTransaction ("2022-01-01:001")
        { image := some 2, dataver := none }).store =
      epochVal { image := some 2, dataver := (none : Option String) } + 1) ∧
    (runGuardedTx 1 id { image := some 2, dataver := none } =
      ({ image := some 2, dataver := none }, some ("DBSyncError"))) := by
  constructor
  · exact ((versionGuard_epoch_protocol.1 ("2022-01-01:001")
      { image := some 2, dataver := none }).1 (by rfl)).1
  · exact versionGuard_epoch_protocol.2.2 1 id
      { image := some 2, dataver := none } (Or.inr (by simp))

/-- The concrete manifest used to refute claim C2: the reserved
filename index with a well-formed revision and size. -/
def c2Input : JSVal :=
  JSVal.vobj [("index",
    JSVal.varr [JSVal.vstr ("2022-01-01:001"), JSVal.vnum (JSNum.fin 0)])]

/-- Claim C2 counterexample: verifyIndex accepts a manifest whose only
entry has the reserved filename index, although the claimed acceptance
condition rejects it; the source checks revisions and sizes but never
the filenames. -/
theorem verifyIndex_accepts_reserved_index :
    verifyIndex c2Input = true ∧ specManifestAccepts c2Input = false := by
  constructor
  · rfl
  · rfl

/-- A single entry passes the per-entry validation exactly when it is a
two-element array of a revision string matching the pattern and a
finite non-negative integer size. -/
theorem entryOk_eq_true_iff (v : JSVal) :
    entryOk v = true ↔
      ∃ rev n, v = JSVal.varr [JSVal.vstr rev, JSVal.vnum n] ∧
        n.isFiniteNum = true ∧ n.isIntVal = true ∧ n.isNonneg = true ∧
        isRevCode rev = true := by
  constructor
  · intro h
    unfold entryOk at h
    split at h
    · next rev n =>
      refine ⟨rev, n, rfl, ?_, ?_, ?_, ?_⟩ <;> simp_all
    · exact absurd h (by simp)
  · rintro ⟨rev, n, rfl, h1, h2, h3, h4⟩
    simp [entryOk, h1, h2, h3, h4]

/-- Claim C2 amended: verifyIndex accepts a parsed manifest object if
and only if every entry value is a two-element array of a revision
string matching the pattern together with a finite non-negative integer
size; filenames are never inspected, and any single violating entry
makes the whole manifest invalid. -/
theorem verifyIndex_accepts_iff (o : List (String × JSVal)) :
    verifyIndex (JSVal.vobj o) = true ↔
      ∀ kv ∈ o, ∃ rev n,
        kv.2 = JSVal.varr [JSVal.vstr rev, JSVal.vnum n] ∧
        n.isFiniteNum = true ∧ n.isIntVal = true ∧ n.isNonneg = true ∧
        isRevCode rev = true := by
  simp only [verifyIndex, List.all_eq_true, entryOk_eq_true_iff]

/-- Witness for the amended C2 at a concrete one-entry manifest. -/
theorem verifyIndex_accepts_iff_witness :
    verifyIndex (JSVal.vobj [("a.gz",
      JSVal.varr [JSVal.vstr ("2022-01-01:001"),
        JSVal.vnum (JSNum.fin 10)])]) = true :=
  (verifyIndex_accepts_iff _).mpr (by
    intro kv hkv
    rw [List.mem_singleton] at hkv
    subst hkv
    exact ⟨"2022-01-01:001", JSNum.fin 10, rfl, rfl, rfl, rfl, rfl⟩)

/-- Claim C3: for a remote manifest with unique keys, the update list
holds exactly the remote keys absent from the local manifest together
with those whose local revision is lexicographically less than the
remote one; the removal list holds exactly the local keys absent from
the remote manifest; and when both lists are empty the commit
transaction of syncCache issues no write and leaves the store
untouched. -/
theorem reconciliation_lists_correct :
    ∀ (R L : Manifest), (R.map Prod.fst).Nodup →
      (∀ k, k ∈ updateList R L ↔
        ∃ er, getKey k R = some er ∧
          (getKey k L = none ∨
           ∃ el, getKey k L = some el ∧ strLt el.rev er.rev = true)) ∧
      (∀ k, k ∈ removalList R L ↔
        k ∈ L.map Prod.fst ∧ getKey k R = none) ∧
      (∀ st jsi raw buf v,
        fsGet st "index" = some buf → buf.dec = some v →
        verifyIndex v = true → dsManifest jsi = R → jsToManifest v = L →
        updateList R L = [] → removalList R L = [] →
        syncCache st jsi raw = (st, [])) := by
  intro R L hnd
  refine ⟨fun k => mem_updateList_iff hnd k,
    fun k => mem_removalList_iff R L k, ?_⟩
  intro st jsi raw buf v h1 h2 h3 h4 h5 h6 h7
  exact syncCache_empty_case st jsi raw buf v h1 h2 h3
    (by rw [h4, h5]; exact h6) (by rw [h4, h5]; exact h7)

/-- Local manifest of scenario B from the specification. -/
def scB_L : Manifest := [("a.gz", { rev := "2022-01-01:001", size := 10 })]

/-- Remote manifest of scenario B from the specification. -/
def scB_R : Manifest :=
  [("a.gz", { rev := "2022-01-01:001", size := 10 }),
   ("b.gz", { rev := "2022-01-01:001", size := 5 })]

/-- JSON form of the scenario B remote manifest. -/
def scB_v : JSVal :=
  JSVal.vobj
    [("a.gz", JSVal.varr [JSVal.vstr ("2022-01-01:001"),
        JSVal.vnum (JSNum.fin 10)]),
     ("b.gz", JSVal.varr [JSVal.vstr ("2022-01-01:001"),
        JSNum.fin 5 |> JSVal.vnum])]

/-- A store already synchronized to the scenario B remote manifest. -/
def scB_st : FStore := [("index", { tag := 1, dec := some scB_v })]

/-- The scenario B remote manifest as a fully assembled dataset. -/
def scB_jsi : Dataset :=
  [("a.gz", { rev := "2022-01-01:001", size := 10,
              blob := some (ABuf.mk 2 none) }),
   ("b.gz", { rev := "2022-01-01:001", size := 5,
              blob := some (ABuf.mk 3 none) })]

/-- Witness for C3 at scenario B: the update list contains b.gz, and on
a store already holding the remote manifest both lists are empty so the
commit issues zero writes. -/
theorem reconciliation_lists_correct_witness :
    "b.gz" ∈ updateList scB_R scB_L ∧
    syncCache scB_st scB_jsi { tag := 1, dec := some scB_v } =
      (scB_st, []) := by
  constructor
  · exact ((reconciliation_lists_correct scB_R scB_L (by decide)).1
      "b.gz").mpr ⟨{ rev := "2022-01-01:001", size := 5 }, rfl, Or.inl rfl⟩
  · exact (reconciliation_lists_correct (dsManifest scB_jsi)
      (jsToManifest scB_v) (by decide)).2.2 scB_st scB_jsi
      { tag := 1, dec := some scB_v } { tag := 1, dec := some scB_v }
      scB_v rfl rfl rfl rfl rfl (by decide) (by decide)

/-- Stored local manifest used to refute claim C4: it lists only file a
at an old revision. -/
def c4_vL : JSVal :=
  JSVal.vobj [("a", JSVal.varr [JSVal.vstr ("2022-01-01:001"),
    JSVal.vnum (JSNum.fin 10)])]

/-- A stray buffer stored under key x, which is neither the index nor
listed in either manifest. -/
def c4_bufX : ABuf := { tag := 3, dec := none }

/-- Store contents before the write-back: the local index, the blob of
a, and the stray key x. -/
def c4_st : FStore :=
  [("index", { tag := 1, dec := some c4_vL }),
   ("a", { tag := 2, dec := none }), ("x", c4_bufX)]

/-- Remote dataset for the C4 counterexample: file a at a newer
revision, blob attached. -/
def c4_jsi : Dataset :=
  [("a", { rev := "2022-01-02:001", size := 10,
           blob := some (ABuf.mk 4 none) })]

/-- Raw buffer of the remote index for the C4 counterexample. -/
def c4_raw : ABuf :=
  { tag := 5,
    dec := some (JSVal.vobj [("a",
      JSVal.varr [JSVal.vstr ("2022-01-02:001"),
        JSVal.vnum (JSNum.fin 10)])]) }

/-- Claim C4 counterexample: the reconciled RemovalList is empty, yet
the write-back transaction deletes the stray stored key x, because the
source recomputes the removal set from the keys actually present in
the store (getAllKeys) rather than from the RemovalList. -/
theorem syncCache_deletes_extra_key :
    removalList (dsManifest c4_jsi) (jsToManifest c4_vL) = [] ∧
    fsGet c4_st "x" = some c4_bufX ∧
    fsGet (syncCache c4_st c4_jsi c4_raw).1 "x" = none := by
  refine ⟨rfl, rfl, rfl⟩

/-- Claim C4 amended: the write-back transaction first re-reads the
stored local manifest.  When that manifest is absent, undecodable or
invalid, it clears the entire store and writes the remote manifest
under the reserved key index together with every assembled blob.  When
the re-read manifest reconciles to two empty lists, it issues no
write.  Otherwise it writes the remote manifest under index, writes
the UpdateList blobs, and then deletes every key actually present in
the store other than index that is not a key of the remote manifest
(this recomputed set equals the RemovalList whenever the stored keys
are exactly the local manifest keys plus index, but can differ
otherwise, as the counterexample shows).  The transaction is
best-effort: its outcome carries no error channel back to the caller,
which mirrors failures only being logged. -/
theorem syncCache_writeback_behaviour :
    ∀ (st : FStore) (jsi : Dataset) (raw : ABuf),
      "index" ∉ jsi.map Prod.fst →
      ((fsGet st "index" = none ∨
        (∃ buf, fsGet st "index" = some buf ∧ buf.dec = none) ∨
        (∃ buf v, fsGet st "index" = some buf ∧ buf.dec = some v ∧
          verifyIndex v = false)) →
        (syncCache st jsi raw).2.head? = some WOp.wclear ∧
        fsGet (syncCache st jsi raw).1 "index" = some raw ∧
        (∀ k e b, getKey k jsi = some e → e.blob = some b →
          fsGet (syncCache st jsi raw).1 k = some b) ∧
        (∀ k, ¬ k = "index" → getKey k jsi = none →
          fsGet (syncCache st jsi raw).1 k = none)) ∧
      (∀ buf v, fsGet st "index" = some buf → buf.dec = some v →
        verifyIndex v = true →
        updateList (dsManifest jsi) (jsToManifest v) = [] →
        removalList (dsManifest jsi) (jsToManifest v) = [] →
        syncCache st jsi raw = (st, [])) ∧
      (∀ buf v, fsGet st "index" = some buf → buf.dec = some v →
        verifyIndex v = true →
        ¬ (updateList (dsManifest jsi) (jsToManifest v) = [] ∧
           removalList (dsManifest jsi) (jsToManifest v) = []) →
        fsGet (syncCache st jsi raw).1 "index" = some raw ∧
        (∀ k e b, k ∈ updateList (dsManifest jsi) (jsToManifest v) →
          getKey k jsi = some e → e.blob = some b →
          fsGet (syncCache st jsi raw).1 k = some b) ∧
        (∀ k, ¬ k = "index" → k ∈ jsi.map Prod.fst →
          k ∉ updateList (dsManifest jsi) (jsToManifest v) →
          fsGet (syncCache st jsi raw).1 k = fsGet st k) ∧
        (∀ k, ¬ k = "index" → getKey k jsi = none →
          fsGet (syncCache st jsi raw).1 k = none)) := by
  intro st jsi raw hidx
  refine ⟨?_, ?_, ?_⟩
  · intro hbad
    rw [syncCache_full_case st jsi raw hbad]
    refine ⟨rfl, ?_, ?_, ?_⟩
    · rw [syncFull_get]
      rw [if_neg hidx, if_pos rfl]
    · intro k e b hke hbe
      have hmem : k ∈ jsi.map Prod.fst := by
        apply (getKey_isSome_iff k jsi).mp
        rw [hke]
        rfl
      rw [syncFull_get, if_pos hmem]
      unfold dsBlobAt
      rw [hke]
      dsimp only
      rw [hbe]
      rfl
    · intro k hk1 hk2
      have hmem : k ∉ jsi.map Prod.fst := (getKey_eq_none_iff k jsi).mp hk2
      rw [syncFull_get, if_neg hmem, if_neg hk1]
  · intro buf v h1 h2 h3 h4 h5
    exact syncCache_empty_case st jsi raw buf v h1 h2 h3 h4 h5
  · intro buf v h1 h2 h3 h4
    rw [syncCache_upd_case st jsi raw buf v h1 h2 h3 h4]
    have hupl : ∀ k ∈ updateList (dsManifest jsi) (jsToManifest v),
        k ∈ jsi.map Prod.fst := by
      intro k hk
      have := updateList_subset_keys (dsManifest jsi) (jsToManifest v) k hk
      rwa [dsManifest_keys] at this
    refine ⟨syncUpd_get_index st jsi raw _ hupl hidx, ?_, ?_, ?_⟩
    · intro k e b hk hke hbe
      rw [syncUpd_get_upd st jsi raw _ k hupl hk]
      unfold dsBlobAt
      rw [hke]
      dsimp only
      rw [hbe]
      rfl
    · intro k hk1 hk2 hk3
      exact syncUpd_get_other st jsi raw _ k hk1 hk2 hk3
    · intro k hk1 hk2
      exact syncUpd_get_stale st jsi raw _ k hk1 hk2

/-- Witness for the amended C4: on an empty store with a one-entry
remote dataset, the write-back clears and rebuilds the store, the
index key holds the remote manifest buffer, and the assembled blob of
a lands under a. -/
theorem syncCache_writeback_behaviour_witness :
    fsGet (syncCache [] c4_jsi c4_raw).1 "index" = some c4_raw ∧
    fsGet (syncCache [] c4_jsi c4_raw).1 "a" = some (ABuf.mk 4 none) := by
  have h := syncCache_writeback_behaviour [] c4_jsi c4_raw (by decide)
  have hfull := h.1 (Or.inl rfl)
  exact ⟨hfull.2.1, hfull.2.2.1 "a"
    { rev := "2022-01-02:001", size := 10, blob := some (ABuf.mk 4 none) }
    (ABuf.mk 4 none) rfl rfl⟩

theorem foldl_add_sizes (l : List (String × DEntry)) (init : Nat) :
    l.foldl (fun acc kv => acc + kv.2.size) init =
      init + (l.map (fun kv => kv.2.size)).sum := by
  induction l generalizing init with
  | nil => simp
  | cons kv r ih =>
    simp only [List.foldl_cons, List.map_cons, List.sum_cons, ih]
    omega

theorem passTwoGo_error (base : String) (fetch : String → Option ABuf)
    (thr : Nat → Bool) (k : String) (e : DEntry) :
    ∀ (l : List (String × DEntry)) (soFar total n : Nat),
      (k, e) ∈ l → e.blob = none → fetch k = none →
      ∃ msg, (passTwoGo base fetch thr soFar total n l).1 =
        Except.error msg := by
  intro l
  induction l with
  | nil =>
    intro _ _ _ hmem
    simp at hmem
  | cons kv r ih =>
    intro soFar total n hmem hblob hf
    rcases List.mem_cons.mp hmem with heq | hmem2
    · subst heq
      refine ⟨"Failed to download " ++ base ++ k, ?_⟩
      simp only [passTwoGo, hblob, Option.isSome_none, Bool.false_eq_true,
        if_false, hf]
    · by_cases hb : kv.2.blob.isSome = true
      · obtain ⟨msg, hmsg⟩ := ih soFar total n hmem2 hblob hf
        refine ⟨msg, ?_⟩
        simp only [passTwoGo, hb, if_true]
        rw [hmsg]
        rfl
      · cases hfk : fetch kv.1 with
        | none =>
          refine ⟨"Failed to download " ++ base ++ kv.1, ?_⟩
          simp [passTwoGo, hb, hfk]
        | some b =>
          obtain ⟨msg, hmsg⟩ :=
            ih (soFar + kv.2.size) total (n + 1) hmem2 hblob hf
          refine ⟨msg, ?_⟩
          simp only [passTwoGo, hb, if_false, hfk]
          rw [hmsg]
          rfl

/-- Claim C5: the total byte count of the network pass is the sum of
the declared sizes of exactly the entries still lacking a blob after
the cache pass, and a failed fetch of any missing entry makes the
whole pass end in an error, so no dataset reaches the caller. -/
theorem network_pass_total_and_fatal :
    (∀ jsi : Dataset, allBytes jsi =
      ((jsi.filter (fun kv => kv.2.blob.isNone)).map
        (fun kv => kv.2.size)).sum) ∧
    (∀ (base : String) (fetch : String → Option ABuf) (jsi : Dataset)
      (k : String) (e : DEntry), (k, e) ∈ jsi → e.blob = none →
      fetch k = none →
      ∃ msg, dataPassTwo base fetch jsi = Except.error msg) := by
  constructor
  · intro jsi
    unfold allBytes
    rw [foldl_add_sizes]
    omega
  · intro base fetch jsi k e hmem hblob hf
    exact passTwoGo_error base fetch (fun _ => false) k e jsi 0
      (allBytes jsi) 0 hmem hblob hf

/-- Witness for C5: a one-entry dataset with no blob and a network that
rejects every request makes the pass fail. -/
theorem network_pass_total_and_fatal_witness :
    ∃ msg, dataPassTwo "" (fun _ => none)
      [("a", { rev := "2022-01-01:001", size := 3, blob := none })] =
      Except.error msg :=
  network_pass_total_and_fatal.2 "" (fun _ => none) _ "a"
    { rev := "2022-01-01:001", size := 3, blob := none }
    (List.mem_singleton.mpr rfl) rfl rfl

/-
  The network-completed dataset: every entry still missing a blob gets
  the fetched buffer attached; used to characterize a fully successful
  network pass.
-/

/-- The dataset after a network pass in which every needed fetch
succeeded. -/
def netComplete (fetch : String → Option ABuf)
    (l : List (String × DEntry)) : List (String × DEntry) :=
  l.map (fun kv =>
    if kv.2.blob.isSome then kv
    else (kv.1, { kv.2 with blob := fetch kv.1 }))

theorem passTwoGo_complete (base : String) (fetch : String → Option ABuf)
    (thr : Nat → Bool) :
    ∀ (l : List (String × DEntry)) (soFar total n : Nat),
      (∀ kv ∈ l, kv.2.blob.isSome = true ∨ (fetch kv.1).isSome = true) →
      (passTwoGo base fetch thr soFar total n l).1 =
        Except.ok (netComplete fetch l) := by
  intro l
  induction l with
  | nil => intro _ _ _ _; rfl
  | cons kv r ih =>
    intro soFar total n h
    by_cases hb : kv.2.blob.isSome = true
    · simp only [passTwoGo, hb, if_true]
      rw [ih soFar total n (fun x hx => h x (List.mem_cons_of_mem _ hx))]
      simp [netComplete, hb, Except.map]
    · have hfk : (fetch kv.1).isSome = true := by
        rcases h kv (List.mem_cons_self _ _) with hc | hc
        · exact absurd hc hb
        · exact hc
      obtain ⟨b, hbv⟩ := Option.isSome_iff_exists.mp hfk
      simp only [passTwoGo, hb, if_false, hbv]
      rw [ih (soFar + kv.2.size) total (n + 1)
        (fun x hx => h x (List.mem_cons_of_mem _ hx))]
      simp [netComplete, hb, hbv, Except.map]

theorem jsToDataset_blob_none (v : JSVal) :
    ∀ kv ∈ jsToDataset v, kv.2.blob = none := by
  intro kv hkv
  cases v with
  | vobj o =>
    rcases List.mem_map.mp hkv with ⟨kv0, _, heq⟩
    rw [← heq]
  | vnull => simp [jsToDataset] at hkv
  | vbool b => simp [jsToDataset] at hkv
  | vnum n => simp [jsToDataset] at hkv
  | vstr s => simp [jsToDataset] at hkv
  | varr a => simp [jsToDataset] at hkv

theorem netComplete_blob_of_none (fetch : String → Option ABuf)
    (l : List (String × DEntry)) (h : ∀ kv ∈ l, kv.2.blob = none) :
    ∀ kv ∈ netComplete fetch l, kv.2.blob = fetch kv.1 := by
  intro kv hkv
  rcases List.mem_map.mp hkv with ⟨kv0, h0, heq⟩
  have hb := h kv0 h0
  rw [← heq]
  simp [hb]

/-- A store whose index is absent, undecodable, unparseable or invalid
contributes nothing: dataPassOne returns the dataset untouched. -/
theorem dataPassOne_degraded (st : FStore) (jsi : Dataset)
    (h : fsGet st "index" = none ∨
      (∃ buf, fsGet st "index" = some buf ∧ buf.dec = none) ∨
      (∃ buf v, fsGet st "index" = some buf ∧ buf.dec = some v ∧
        verifyIndex v = false)) :
    dataPassOne st jsi = jsi := by
  unfold dataPassOne
  rcases h with h | ⟨buf, h1, h2⟩ | ⟨buf, v, h1, h2, h3⟩
  · rw [h]
  · rw [h1]
    dsimp only
    rw [h2]
  · rw [h1]
    dsimp only
    rw [h2]
    dsimp only
    rw [h3]
    simp

/-- The cache is effectively absent for a load: no store connection, or
a stored index that is missing, undecodable or invalid. -/
def cacheDegraded (env : Env) : Prop :=
  env.connect = none ∨
  ∃ st, env.connect = some st ∧
    (fsGet st "index" = none ∨
     (∃ buf, fsGet st "index" = some buf ∧ buf.dec = none) ∨
     (∃ buf v2, fsGet st "index" = some buf ∧ buf.dec = some v2 ∧
       verifyIndex v2 = false))

/-- Claim C6: a remote manifest that parses but fails validation is
fatal to the load with the exact error of initDB line 1163; whereas a
missing store connection or a missing, undecodable, unparseable or
invalid local manifest only degrades the load, which still succeeds
(when the network serves every file) with every entry fetched over the
network. -/
theorem remote_invalid_fatal_local_degrades :
    (∀ (env : Env) (raw : ABuf) (js : JSVal),
      env.onLine = true → env.fetchIndex = some raw →
      raw.dec = some js → verifyIndex js = false →
      initDB env = Except.error ("Data file index not valid")) ∧
    (∀ (env : Env) (raw : ABuf) (js : JSVal),
      env.onLine = true → env.fetchIndex = some raw →
      raw.dec = some js → verifyIndex js = true → cacheDegraded env →
      (∀ kv ∈ jsToDataset js, (env.fetch kv.1).isSome = true) →
      initDB env = Except.ok (netComplete env.fetch (jsToDataset js)) ∧
      ∀ kv ∈ netComplete env.fetch (jsToDataset js),
        kv.2.blob = env.fetch kv.1) := by
  constructor
  · intro env raw js h1 h2 h3 h4
    unfold initDB
    rw [h1]
    simp only [Bool.true_eq_false, if_false]
    rw [h2]
    dsimp only
    rw [h3]
    dsimp only
    rw [h4]
    simp
  · intro env raw js h1 h2 h3 h4 hdeg hfetch
    have hpass : ∀ jsi1, jsi1 = jsToDataset js →
        dataPassTwo env.base env.fetch jsi1 =
          Except.ok (netComplete env.fetch (jsToDataset js)) := by
      intro jsi1 hj
      subst hj
      unfold dataPassTwo dataPassTwoS
      apply passTwoGo_complete
      intro kv hkv
      exact Or.inr (hfetch kv hkv)
    have hgoal : initDB env =
        Except.ok (netComplete env.fetch (jsToDataset js)) := by
      unfold initDB
      rw [h1]
      simp only [Bool.true_eq_false, if_false]
      rw [h2]
      dsimp only
      rw [h3]
      dsimp only
      rw [h4]
      simp only [if_true]
      rcases hdeg with hc | ⟨st, hc, hbad⟩
      · rw [hc]
        exact hpass _ rfl
      · rw [hc]
        dsimp only
        rw [dataPassOne_degraded st _ hbad]
        exact hpass _ rfl
    exact ⟨hgoal, netComplete_blob_of_none env.fetch _
      (jsToDataset_blob_none js)⟩

/-- Environment for the C6 witness: online, remote index valid, no
store connection, network serving every file. -/
def c6_env : Env :=
  { onLine := true, base := "",
    fetchIndex := some { tag := 1, dec := some scB_v },
    connect := none,
    fetch := fun _ => some (ABuf.mk 9 none) }

/-- Witness for C6: with the cache unavailable the load still succeeds
and every delivered blob is the fetched one. -/
theorem remote_invalid_fatal_local_degrades_witness :
    initDB c6_env =
      Except.ok (netComplete c6_env.fetch (jsToDataset scB_v)) :=
  (remote_invalid_fatal_local_degrades.2 c6_env
    { tag := 1, dec := some scB_v } scB_v rfl rfl rfl rfl
    (Or.inl rfl) (fun _ _ => rfl)).1

/-
  Lemmas for the cache pass.
-/

theorem passOneEntry_fst (st : FStore) (m : Manifest)
    (kv : String × DEntry) : (passOneEntry st m kv).1 = kv.1 := by
  unfold passOneEntry
  cases hg : getKey kv.1 m with
  | none => rfl
  | some e =>
    dsimp only
    by_cases h1 : strLt e.rev kv.2.rev = true
    · simp [h1]
    · simp only [h1, if_false]
      by_cases h2 : kv.2.blob.isSome = true
      · simp [h2]
      · simp only [h2, if_false]
        cases fsGet st kv.1 <;> rfl

theorem dataPassOne_valid (st : FStore) (jsi : Dataset) (buf : ABuf)
    (v : JSVal) (h1 : fsGet st "index" = some buf)
    (h2 : buf.dec = some v) (h3 : verifyIndex v = true) :
    dataPassOne st jsi = jsi.map (passOneEntry st (jsToManifest v)) := by
  unfold dataPassOne
  rw [h1]
  dsimp only
  rw [h2]
  dsimp only
  rw [h3]
  simp

theorem passOne_map_keys (st : FStore) (m : Manifest) (jsi : Dataset) :
    (jsi.map (passOneEntry st m)).map Prod.fst = jsi.map Prod.fst := by
  rw [List.map_map]
  apply List.map_congr_left
  intro kv _
  exact passOneEntry_fst st m kv

/-- Claim C7: the cache pass performs no store write (its transaction
is readonly, reflected in its type) and, for a valid local manifest,
attaches the stored blob to every remote entry whose local revision is
not lexicographically older than the remote revision, while entries
absent from the local manifest or with an older local revision keep no
blob from the cache. -/
theorem cache_pass_copies_fresh_entries :
    ∀ (st : FStore) (jsi : Dataset) (buf : ABuf) (v : JSVal),
      fsGet st "index" = some buf → buf.dec = some v →
      verifyIndex v = true → (jsi.map Prod.fst).Nodup →
      ∀ (k : String) (e : DEntry), (k, e) ∈ jsi → e.blob = none →
        ((∀ el, getKey k (jsToManifest v) = some el →
            strLt el.rev e.rev = false →
            getKey k (dataPassOne st jsi) =
              some { e with blob := fsGet st k }) ∧
         (getKey k (jsToManifest v) = none →
            getKey k (dataPassOne st jsi) = some e) ∧
         (∀ el, getKey k (jsToManifest v) = some el →
            strLt el.rev e.rev = true →
            getKey k (dataPassOne st jsi) = some e)) := by
  intro st jsi buf v h1 h2 h3 hnd k e hmem hblob
  rw [dataPassOne_valid st jsi buf v h1 h2 h3]
  have hnd2 : ((jsi.map (passOneEntry st (jsToManifest v))).map
      Prod.fst).Nodup := by
    rw [passOne_map_keys]
    exact hnd
  have hmemP : (k, (passOneEntry st (jsToManifest v) (k, e)).2) ∈
      jsi.map (passOneEntry st (jsToManifest v)) := by
    have hp : passOneEntry st (jsToManifest v) (k, e) =
        (k, (passOneEntry st (jsToManifest v) (k, e)).2) :=
      Prod.ext (passOneEntry_fst st (jsToManifest v) (k, e)) rfl
    rw [← hp]
    exact List.mem_map.mpr ⟨(k, e), hmem, rfl⟩
  have hget := getKey_of_mem_nodup hnd2 hmemP
  obtain ⟨rev0, size0, blob0⟩ := e
  dsimp only at hblob
  subst hblob
  refine ⟨?_, ?_, ?_⟩
  · intro el hel hlt
    have hpe : passOneEntry st (jsToManifest v)
        (k, { rev := rev0, size := size0, blob := none }) =
        (k, { rev := rev0, size := size0, blob := fsGet st k }) := by
      unfold passOneEntry
      simp only [hel]
      simp only [hlt, Bool.false_eq_true, if_false]
      simp only [Option.isSome_none, Bool.false_eq_true, if_false]
      cases hfs : fsGet st k with
      | none => rfl
      | some b => rfl
    rw [hget, hpe]
  · intro hel
    have hpe : passOneEntry st (jsToManifest v)
        (k, { rev := rev0, size := size0, blob := none }) =
        (k, { rev := rev0, size := size0, blob := none }) := by
      unfold passOneEntry
      simp only [hel]
    rw [hget, hpe]
  · intro el hel hlt
    have hpe : passOneEntry st (jsToManifest v)
        (k, { rev := rev0, size := size0, blob := none }) =
        (k, { rev := rev0, size := size0, blob := none }) := by
      unfold passOneEntry
      simp only [hel]
      simp only [hlt, if_true]
    rw [hget, hpe]

/-- Store for the C7 witness: the scenario B manifest with a stored
blob for a.gz. -/
def c7_st : FStore :=
  [("index", { tag := 1, dec := some scB_v }), ("a.gz", ABuf.mk 7 none)]

/-- Witness for C7: with equal local and remote revisions the stored
blob of a.gz is copied into the dataset. -/
theorem cache_pass_copies_fresh_entries_witness :
    getKey "a.gz" (dataPassOne c7_st (jsToDataset scB_v)) =
      some { rev := "2022-01-01:001", size := 10,
             blob := some (ABuf.mk 7 none) } := by
  have h := (cache_pass_copies_fresh_entries c7_st (jsToDataset scB_v)
    { tag := 1, dec := some scB_v } scB_v rfl rfl rfl (by decide)
    "a.gz" { rev := "2022-01-01:001", size := 10, blob := none }
    (List.mem_cons_self _ _) rfl).1
    { rev := "2022-01-01:001", size := 10 } rfl rfl
  exact h

/-- Claim C8: after one full sync against an unchanged remote manifest
whose raw index buffer decodes to the same manifest as the dataset,
the second run reconciles to two empty lists and issues zero writes,
leaving the store exactly as the first run left it. -/
theorem sync_idempotent_second_run :
    ∀ (st : FStore) (jsi : Dataset) (raw : ABuf) (v : JSVal),
      raw.dec = some v → verifyIndex v = true →
      jsToManifest v = dsManifest jsi →
      ((dsManifest jsi).map Prod.fst).Nodup →
      "index" ∉ jsi.map Prod.fst →
      syncCache (syncCache st jsi raw).1 jsi raw =
        ((syncCache st jsi raw).1, []) ∧
      (∃ buf v1, fsGet (syncCache st jsi raw).1 "index" = some buf ∧
        buf.dec = some v1 ∧ verifyIndex v1 = true ∧
        updateList (dsManifest jsi) (jsToManifest v1) = [] ∧
        removalList (dsManifest jsi) (jsToManifest v1) = []) := by
  intro st jsi raw v hdec hver hman hnd hidx
  have hupdself : updateList (dsManifest jsi) (jsToManifest v) = [] := by
    rw [hman]
    exact updateList_self hnd
  have hrmlself : removalList (dsManifest jsi) (jsToManifest v) = [] := by
    rw [hman]
    exact removalList_self _
  have hraw : ∀ st1 : FStore, fsGet st1 "index" = some raw →
      syncCache st1 jsi raw = (st1, []) ∧
      (∃ buf v1, fsGet st1 "index" = some buf ∧
        buf.dec = some v1 ∧ verifyIndex v1 = true ∧
        updateList (dsManifest jsi) (jsToManifest v1) = [] ∧
        removalList (dsManifest jsi) (jsToManifest v1) = []) := by
    intro st1 hst1
    exact ⟨syncCache_empty_case st1 jsi raw raw v hst1 hdec hver
        hupdself hrmlself,
      raw, v, hst1, hdec, hver, hupdself, hrmlself⟩
  cases hG : fsGet st "index" with
  | none =>
    have hfull : syncCache st jsi raw = syncFull jsi raw :=
      syncCache_full_case st jsi raw (Or.inl hG)
    have hidx1 : fsGet (syncCache st jsi raw).1 "index" = some raw := by
      rw [hfull, syncFull_get, if_neg hidx, if_pos rfl]
    exact hraw _ hidx1
  | some buf =>
    cases hD : buf.dec with
    | none =>
      have hfull : syncCache st jsi raw = syncFull jsi raw :=
        syncCache_full_case st jsi raw (Or.inr (Or.inl ⟨buf, hG, hD⟩))
      have hidx1 : fsGet (syncCache st jsi raw).1 "index" = some raw := by
        rw [hfull, syncFull_get, if_neg hidx, if_pos rfl]
      exact hraw _ hidx1
    | some v0 =>
      by_cases hv0 : verifyIndex v0 = true
      · by_cases hempty :
          updateList (dsManifest jsi) (jsToManifest v0) = [] ∧
          removalList (dsManifest jsi) (jsToManifest v0) = []
        · have hfirst : syncCache st jsi raw = (st, []) :=
            syncCache_empty_case st jsi raw buf v0 hG hD hv0
              hempty.1 hempty.2
          rw [hfirst]
          exact ⟨syncCache_empty_case st jsi raw buf v0 hG hD hv0
              hempty.1 hempty.2,
            buf, v0, hG, hD, hv0, hempty.1, hempty.2⟩
        · have hfirst := syncCache_upd_case st jsi raw buf v0 hG hD
            hv0 hempty
          have hupl : ∀ k ∈ updateList (dsManifest jsi)
              (jsToManifest v0), k ∈ jsi.map Prod.fst := by
            intro k hk
            have := updateList_subset_keys (dsManifest jsi)
              (jsToManifest v0) k hk
            rwa [dsManifest_keys] at this
          have hidx1 : fsGet (syncCache st jsi raw).1 "index" =
              some raw := by
            rw [hfirst]
            exact syncUpd_get_index st jsi raw _ hupl hidx
          exact hraw _ hidx1
      · have hfull : syncCache st jsi raw = syncFull jsi raw :=
          syncCache_full_case st jsi raw
            (Or.inr (Or.inr ⟨buf, v0, hG, hD,
              Bool.eq_false_iff.mpr hv0⟩))
        have hidx1 : fsGet (syncCache st jsi raw).1 "index" =
            some raw := by
          rw [hfull, syncFull_get, if_neg hidx, if_pos rfl]
        exact hraw _ hidx1

/-- Witness for C8 at scenario B: starting from an empty store, the
second run of the write-back is a no-op with zero writes. -/
theorem sync_idempotent_second_run_witness :
    syncCache (syncCache [] scB_jsi (ABuf.mk 1 (some scB_v))).1 scB_jsi
      (ABuf.mk 1 (some scB_v)) =
      ((syncCache [] scB_jsi (ABuf.mk 1 (some scB_v))).1, []) :=
  (sync_idempotent_second_run [] scB_jsi (ABuf.mk 1 (some scB_v)) scB_v
    rfl rfl (by decide) (by decide) (by decide)).1

/-
  Lemma for the network-pass progress hyperproperty.
-/

theorem passTwoGo_fst_ignores_thr (base : String)
    (fetch : String → Option ABuf) (thr1 thr2 : Nat → Bool) :
    ∀ (l : List (String × DEntry)) (soFar total n1 n2 : Nat),
      (passTwoGo base fetch thr1 soFar total n1 l).1 =
      (passTwoGo base fetch thr2 soFar total n2 l).1 := by
  intro l
  induction l with
  | nil => intro _ _ _ _; rfl
  | cons kv r ih =>
    intro soFar total n1 n2
    by_cases hb : kv.2.blob.isSome = true
    · simp only [passTwoGo, hb, if_true]
      rw [ih soFar total n1 n2]
    · cases hfk : fetch kv.1 with
      | none => simp [passTwoGo, hb, hfk]
      | some b =>
        simp only [passTwoGo, hb, Bool.false_eq_true, if_false, hfk]
        rw [ih (soFar + kv.2.size) total (n1 + 1) (n2 + 1)]

/-- Claim C9: the progress callback is purely observational.  Any two
behaviours of the status callback, including one that throws on every
invocation (thr constantly true), yield the identical delivered
outcome of the network pass, which moreover equals the outcome of the
plain pass; an exception thrown by the callback is caught by the
source and never aborts the load. -/
theorem progress_callback_observational :
    ∀ (base : String) (fetch : String → Option ABuf) (jsi : Dataset)
      (thr1 thr2 : Nat → Bool),
      (dataPassTwoS base fetch thr1 jsi).1 =
        (dataPassTwoS base fetch thr2 jsi).1 ∧
      (dataPassTwoS base fetch thr1 jsi).1 =
        dataPassTwo base fetch jsi := by
  intro base fetch jsi thr1 thr2
  constructor
  · exact passTwoGo_fst_ignores_thr base fetch thr1 thr2 jsi 0
      (allBytes jsi) 0 0
  · exact passTwoGo_fst_ignores_thr base fetch thr1 (fun _ => false)
      jsi 0 (allBytes jsi) 0 0

/-
  The cache-only load.
-/

theorem cacheLoadGo_isOk_iff (st : FStore) :
    ∀ l : List (String × DEntry),
      (∃ d, cacheLoadGo st l = Except.ok d) ↔
      ∀ kv ∈ l, (fsGet st kv.1).isSome = true := by
  intro l
  induction l with
  | nil => simp [cacheLoadGo]
  | cons kv r ih =>
    constructor
    · rintro ⟨d, hd⟩
      intro x hx
      rcases List.mem_cons.mp hx with heq | hx2
      · subst heq
        cases hfs : fsGet st x.1 with
        | none =>
          rw [cacheLoadGo, hfs] at hd
          exact absurd hd (by simp)
        | some b => rfl
      · cases hfs : fsGet st kv.1 with
        | none =>
          rw [cacheLoadGo, hfs] at hd
          exact absurd hd (by simp)
        | some b =>
          rw [cacheLoadGo, hfs] at hd
          have hr : ∃ d2, cacheLoadGo st r = Except.ok d2 := by
            cases hrec : cacheLoadGo st r with
            | ok d2 => exact ⟨d2, rfl⟩
            | error msg =>
              rw [hrec] at hd
              exact absurd hd (by simp [Except.map])
          exact (ih.mp hr) x hx2
    · intro h
      have hk : (fsGet st kv.1).isSome = true :=
        h kv (List.mem_cons_self _ _)
      obtain ⟨b, hb⟩ := Option.isSome_iff_exists.mp hk
      obtain ⟨d2, hd2⟩ := ih.mpr
        (fun x hx => h x (List.mem_cons_of_mem _ hx))
      refine ⟨(kv.1, { kv.2 with blob := some b }) :: d2, ?_⟩
      rw [cacheLoadGo, hb, hd2]
      rfl

theorem cacheLoadGo_error_eq (st : FStore) :
    ∀ (l : List (String × DEntry)) (msg : String),
      cacheLoadGo st l = Except.error msg → msg = cacheFailMsg := by
  intro l
  induction l with
  | nil =>
    intro msg h
    exact absurd h (by simp [cacheLoadGo])
  | cons kv r ih =>
    intro msg h
    cases hfs : fsGet st kv.1 with
    | none =>
      rw [cacheLoadGo, hfs] at h
      injection h with h
      exact h.symm
    | some b =>
      rw [cacheLoadGo, hfs] at h
      cases hrec : cacheLoadGo st r with
      | ok d2 =>
        rw [hrec] at h
        exact absurd h (by simp [Except.map])
      | error msg2 =>
        rw [hrec] at h
        have : msg2 = msg := by
          simpa [Except.map] using h
        exact this ▸ ih msg2 hrec

/-- The cache-only load can succeed: the store is reachable, the cached
manifest is present, decodable and valid, and every key it lists has a
stored value. -/
def cacheOk (conn : Option FStore) : Prop :=
  ∃ st buf v, conn = some st ∧ fsGet st "index" = some buf ∧
    buf.dec = some v ∧ verifyIndex v = true ∧
    ∀ kv ∈ jsToDataset v, (fsGet st kv.1).isSome = true

/-- Claim C10: when the browser reports offline, or the remote index
fails to download, initDB performs the cache-only load; that load
succeeds exactly when the cached manifest is reachable, present and
valid and every listed key has a stored blob, and every failure
carries the single reason string of cacheLoad. -/
theorem offline_cache_only_load :
    (∀ env : Env, env.onLine = false →
      initDB env = cacheLoad env.connect) ∧
    (∀ env : Env, env.onLine = true → env.fetchIndex = none →
      initDB env = cacheLoad env.connect) ∧
    (∀ conn, (∃ d, cacheLoad conn = Except.ok d) ↔ cacheOk conn) ∧
    (∀ conn msg, cacheLoad conn = Except.error msg →
      msg = cacheFailMsg) := by
  refine ⟨?_, ?_, ?_, ?_⟩
  · intro env h
    unfold initDB
    rw [h]
    simp
  · intro env h1 h2
    unfold initDB
    rw [h1, h2]
    simp
  · intro conn
    cases conn with
    | none =>
      constructor
      · rintro ⟨d, hd⟩
        exact absurd hd (by simp [cacheLoad])
      · rintro ⟨st, buf, v, hc, _⟩
        exact absurd hc (by simp)
    | some st =>
      cases hG : fsGet st "index" with
      | none =>
        constructor
        · rintro ⟨d, hd⟩
          rw [cacheLoad, hG] at hd
          exact absurd hd (by simp)
        · rintro ⟨st2, buf, v, hc, hG2, _⟩
          injection hc with hc
          subst hc
          rw [hG] at hG2
          exact absurd hG2 (by simp)
      | some buf =>
        cases hD : buf.dec with
        | none =>
          constructor
          · rintro ⟨d, hd⟩
            rw [cacheLoad, hG] at hd
            dsimp only at hd
            rw [hD] at hd
            exact absurd hd (by simp)
          · rintro ⟨st2, buf2, v, hc, hG2, hD2, _⟩
            injection hc with hc
            subst hc
            rw [hG] at hG2
            injection hG2 with hG2
            subst hG2
            rw [hD] at hD2
            exact absurd hD2 (by simp)
        | some v =>
          by_cases hv : verifyIndex v = true
          · have hload : cacheLoad (some st) =
                cacheLoadGo st (jsToDataset v) := by
              rw [cacheLoad, hG]
              dsimp only
              rw [hD]
              dsimp only
              rw [hv]
              simp
            constructor
            · rintro ⟨d, hd⟩
              rw [hload] at hd
              refine ⟨st, buf, v, rfl, hG, hD, hv, ?_⟩
              exact (cacheLoadGo_isOk_iff st (jsToDataset v)).mp
                ⟨d, hd⟩
            · rintro ⟨st2, buf2, v2, hc, hG2, hD2, hv2, hall⟩
              injection hc with hc
              subst hc
              rw [hG] at hG2
              injection hG2 with hG2
              subst hG2
              rw [hD] at hD2
              injection hD2 with hD2
              subst hD2
              rw [hload]
              exact (cacheLoadGo_isOk_iff st (jsToDataset v)).mpr hall
          · constructor
            · rintro ⟨d, hd⟩
              rw [cacheLoad, hG] at hd
              dsimp only at hd
              rw [hD] at hd
              dsimp only at hd
              rw [Bool.eq_false_iff.mpr hv] at hd
              exact absurd hd (by simp)
            · rintro ⟨st2, buf2, v2, hc, hG2, hD2, hv2, _⟩
              injection hc with hc
              subst hc
              rw [hG] at hG2
              injection hG2 with hG2
              subst hG2
              rw [hD] at hD2
              injection hD2 with hD2
              subst hD2
              exact absurd hv2 hv
  · intro conn msg h
    cases conn with
    | none =>
      rw [cacheLoad] at h
      injection h with h
      exact h.symm
    | some st =>
      cases hG : fsGet st "index" with
      | none =>
        rw [cacheLoad, hG] at h
        injection h with h
        exact h.symm
      | some buf =>
        cases hD : buf.dec with
        | none =>
          rw [cacheLoad, hG] at h
          dsimp only at h
          rw [hD] at h
          injection h with h
          exact h.symm
        | some v =>
          by_cases hv : verifyIndex v = true
          · rw [cacheLoad, hG] at h
            dsimp only at h
            rw [hD] at h
            dsimp only at h
            rw [hv] at h
            simp only [if_true] at h
            exact cacheLoadGo_error_eq st (jsToDataset v) msg h
          · rw [cacheLoad, hG] at h
            dsimp only at h
            rw [hD] at h
            dsimp only at h
            rw [Bool.eq_false_iff.mpr hv] at h
            simp only [Bool.false_eq_true, if_false] at h
            injection h with h
            exact h.symm

/-- Store for the C10 witness: a valid one-entry cached manifest with
its blob stored. -/
def c10_st : FStore :=
  [("index", { tag := 1, dec := some c4_vL }), ("a", ABuf.mk 2 none)]

/-- Offline environment for the C10 witness. -/
def c10_env : Env :=
  { onLine := false, base := "", fetchIndex := none,
    connect := some c10_st, fetch := fun _ => none }

/-- Witness for C10: offline routing to the cache-only load, and a
successful cache-only load on a complete cache. -/
theorem offline_cache_only_load_witness :
    initDB c10_env = cacheLoad (some c10_st) ∧
    (∃ d, cacheLoad (some c10_st) = Except.ok d) := by
  constructor
  · exact offline_cache_only_load.1 c10_env rfl
  · apply (offline_cache_only_load.2.2.1 (some c10_st)).mpr
    refine ⟨c10_st, { tag := 1, dec := some c4_vL }, c4_vL, rfl, rfl,
      rfl, rfl, ?_⟩
    intro kv hkv
    rw [show jsToDataset c4_vL =
      [("a", { rev := "2022-01-01:001", size := 10, blob := none })]
      from rfl] at hkv
    rw [List.mem_singleton] at hkv
    subst hkv
    rfl

end Cantotype
